import Mathlib

/-!
Shallow embedding of `src/aiogram_media_approval_bot.py` (the active first
program in that file): the album ingestion/debounce path (`handle_message`'s
album branch plus `flush_album` and `save_pending`) and the moderation
callback handlers (`approve_all`, `reject_all`, `selective`, `keep_remove`,
`finalize`).

Modelling conventions, stated once here:
* Python dicts keyed by integers (`media_buffer`, `album_meta`,
  `selective_selections`, and the SQLite `pending` table keyed by rowid) are
  association lists `List (Nat x value)`; `setK` replaces a present key in
  place and appends an absent key at the end, matching CPython insertion
  order; `removeK` removes every pair with the key, matching both
  `dict.pop(k, None)` and `DELETE FROM pending WHERE id=?`.
* Strings that Python tests for truthiness (`msg.caption`,
  `p.get("caption")`, `username`) are plain `String`s where `""` stands for
  both `None` and the empty string — exactly the falsy string values.
* Telegram transport calls are recorded as `Effect` values.  The main-group
  sends performed by `approve_all` and `finalize` may raise in Python; a
  raised exception aborts the handler (aiogram's dispatcher swallows it), so
  those two handlers take success flags and, on the first failure, stop:
  no further effect is emitted and no further state is mutated.
* The debounce machinery is modelled for one group key over integer time:
  each arrival is handled atomically at its timestamp, cancelling the armed
  flush task and re-arming the deadline at `t + MEDIA_TIMEOUT`; an armed
  deadline fires before an arrival that is no earlier than it, and fires
  unconditionally once the burst ends (`settle`).
-/

namespace MediaBot

/-- One media item as stored in `media_buffer` and in the `payload` column:
a Telegram `file_id` plus its kind string `"photo"` or `"video"`. -/
structure Item where
  file_id : String
  type : String
deriving DecidableEq, Repr

/-- A row of the `pending` table as produced by `save_pending` and read back
by `get_pending`.  The `created_at` wall-clock timestamp string is outside
the model; `chat_id` is stored by the code as the decimal string of the
integer chat id, kept here as the integer itself. -/
structure Pending where
  chat_id : Int
  user_id : Int
  username : String
  full_name : String
  media_group_id : String
  is_album : Bool
  caption : String
  items : List Item
deriving DecidableEq, Repr

/-- Dict lookup `d.get(k)` / SQL `SELECT ... WHERE id=?`: first matching key. -/
def lookupK {α : Type} : List (Nat × α) → Nat → Option α
  | [], _ => none
  | (k, v) :: rest, key => if k = key then some v else lookupK rest key

/-- Dict lookup with default, `d.get(k, dflt)`. -/
def lookupKD {α : Type} (l : List (Nat × α)) (k : Nat) (d : α) : α :=
  (lookupK l k).getD d

/-- Dict write `d[k] = v`: replace in place when the key is present,
append at the end otherwise (CPython insertion order). -/
def setK {α : Type} : List (Nat × α) → Nat → α → List (Nat × α)
  | [], key, v => [(key, v)]
  | (k, w) :: rest, key, v =>
    if k = key then (k, v) :: rest else (k, w) :: setK rest key v

/-- Key removal: `dict.pop(k, None)` / `DELETE FROM pending WHERE id=?`. -/
def removeK {α : Type} : List (Nat × α) → Nat → List (Nat × α)
  | [], _ => []
  | (k, v) :: rest, key =>
    if k = key then removeK rest key else (k, v) :: removeK rest key

/-- `get_pending`: look a submission row up by id. -/
def get_pending (l : List (Nat × Pending)) (pid : Nat) : Option Pending :=
  lookupK l pid

/-- `delete_pending`: delete the row with the given id. -/
def delete_pending (l : List (Nat × Pending)) (pid : Nat) : List (Nat × Pending) :=
  removeK l pid

/-- Observable transport calls made by the moderation handlers.  `ok` on the
fallible main-group sends records whether the underlying call succeeded. -/
inductive Effect where
  | publishBatch (media : List (Item × Option String)) (ok : Bool)
  | publishSingle (it : Item) (caption : Option String) (ok : Bool)
  | sendText (text : String) (ok : Bool)
  | sendPrompt (text : String)
  | sendItemPrompt (idx : Nat) (it : Item)
  | answer (text : String)
  | editText (text : String)
deriving DecidableEq, Repr

/-- The MarkdownV2 escaping chain applied to `full_name` inside `mention`. -/
def escapeName (s : String) : String :=
  let s := s.replace "_" "\\_"
  let s := s.replace "*" "\\*"
  let s := s.replace "[" "\\["
  let s := s.replace "]" "\\]"
  let s := s.replace "(" "\\("
  let s := s.replace ")" "\\)"
  let s := s.replace "~" "\\~"
  let s := s.replace "`" "\\`"
  let s := s.replace ">" "\\>"
  let s := s.replace "#" "\\#"
  let s := s.replace "+" "\\+"
  let s := s.replace "-" "\\-"
  let s := s.replace "=" "\\="
  let s := s.replace "|" "\\|"
  let s := s.replace "\x7b" "\\\x7b"
  let s := s.replace "\x7d" "\\\x7d"
  let s := s.replace "." "\\."
  let s := s.replace "!" "\\!"
  s

/-- `mention`: `@username` when a username exists, else a MarkdownV2 user
link built from the escaped full name and the numeric id. -/
def mention (uid : Int) (username : String) (full_name : String) : String :=
  if username ≠ "" then "@" ++ username
  else "[" ++ escapeName full_name ++ "](tg://user?id=" ++ toString uid ++ ")"

/-- The attribution text sent to the main group after a republish. -/
def attributionText (p : Pending) : String :=
  "Media submitted by " ++ mention p.user_id p.username p.full_name

/-- The mutable state the moderation callbacks touch: the durable `pending`
table and the in-memory `selective_selections` dict. -/
structure BotState where
  pending : List (Nat × Pending)
  selective_selections : List (Nat × List (Nat × Bool))
deriving DecidableEq, Repr

/-- The media-building loop of `approve_all`: each item becomes an input
media; the caption is attached to the first item only, and only when the
stored caption is truthy (`if not media and p.get("caption")`). -/
def buildGo (cap : String) : List (Item × Option String) → List Item → List (Item × Option String)
  | acc, [] => acc
  | acc, it :: rest =>
    buildGo cap (acc ++ [(it, if acc = [] ∧ cap ≠ "" then some cap else none)]) rest

/-- Media list built by `approve_all` from a stored record. -/
def buildMedia (items : List Item) (cap : String) : List (Item × Option String) :=
  buildGo cap [] items

/-- The filtering loop of `finalize`: keep item `idx` iff
`sel.get(idx, True)`; the caption goes on the first kept item only, and only
when the stored caption is truthy. -/
def approvedGo (sel : List (Nat × Bool)) (cap : String) :
    List (Item × Option String) → Nat → List Item → List (Item × Option String)
  | acc, _, [] => acc
  | acc, idx, it :: rest =>
    if lookupKD sel idx true then
      approvedGo sel cap (acc ++ [(it, if acc = [] ∧ cap ≠ "" then some cap else none)]) (idx + 1) rest
    else
      approvedGo sel cap acc (idx + 1) rest

/-- Media list built by `finalize` from a stored record and the selection map. -/
def approvedMedia (sel : List (Nat × Bool)) (items : List Item) (cap : String) :
    List (Item × Option String) :=
  approvedGo sel cap [] 0 items

/-- The kept subsequence of the items, in original order: item `idx`
survives iff `sel.get(idx, True)` (undecided defaults to keep). -/
def keptGo (sel : List (Nat × Bool)) : Nat → List Item → List Item
  | _, [] => []
  | idx, it :: rest =>
    if lookupKD sel idx true then it :: keptGo sel (idx + 1) rest
    else keptGo sel (idx + 1) rest

/-- Kept items of a submission under a selection map (default keep). -/
def keptItems (sel : List (Nat × Bool)) (items : List Item) : List Item :=
  keptGo sel 0 items

/-- Attach a truthy caption to the first item of a list, none elsewhere. -/
def withCap (cap : String) : List Item → List (Item × Option String)
  | [] => []
  | x :: xs => (x, if cap ≠ "" then some cap else none) :: xs.map (fun it => (it, none))

/-- Python's `caption or None`: empty string collapses to `None`. -/
def orNone (c : Option String) : Option String :=
  match c with
  | some s => if s = "" then none else some s
  | none => none

/-- The send performed by `finalize` on a non-empty surviving list:
`send_media_group` when more than one item survives, else `send_photo` /
`send_video` with `caption=m.caption or None`.  (`finalize` only reaches
this with a non-empty list; the `[]` case defaults to the batch shape.) -/
def pubEffect (approved : List (Item × Option String)) (ok : Bool) : Effect :=
  match approved with
  | [m] => Effect.publishSingle m.1 (orNone m.2) ok
  | _ => Effect.publishBatch approved ok

/-- Callback `approve_all:{pid}` (string braces are literal here): on a
missing record answer `"Not found"`; otherwise republish all items as one
`send_media_group` to the main group, send the attribution, delete the row
and edit the prompt.  `pubOk` / `attrOk` are the outcomes of the two
fallible sends; either failure raises in Python and aborts the handler. -/
def approve_all (st : BotState) (pid : Nat) (pubOk attrOk : Bool) : BotState × List Effect :=
  match get_pending st.pending pid with
  | none => (st, [Effect.answer "Not found"])
  | some p =>
    let media := buildMedia p.items p.caption
    if pubOk then
      if attrOk then
        ({ st with pending := delete_pending st.pending pid },
         [Effect.publishBatch media true,
          Effect.sendText (attributionText p) true,
          Effect.editText "Approved & posted"])
      else
        (st, [Effect.publishBatch media true, Effect.sendText (attributionText p) false])
    else
      (st, [Effect.publishBatch media false])

/-- Callback `reject_all:{pid}`: delete the row when it exists, then edit
the prompt to `"Rejected"` in every case. -/
def reject_all (st : BotState) (pid : Nat) : BotState × List Effect :=
  if (get_pending st.pending pid).isSome then
    ({ st with pending := delete_pending st.pending pid }, [Effect.editText "Rejected"])
  else
    (st, [Effect.editText "Rejected"])

/-- The per-item keep/remove prompts sent by `selective`, one per index. -/
def itemPrompts : Nat → List Item → List Effect
  | _, [] => []
  | idx, it :: rest => Effect.sendItemPrompt idx it :: itemPrompts (idx + 1) rest

/-- Callback `selective:{pid}`: on a missing record, bare `return` (no
response, no mutation); otherwise reset `selective_selections[pid]` to the
empty map, send one keep/remove prompt per item, and edit the prompt. -/
def selective (st : BotState) (pid : Nat) : BotState × List Effect :=
  match get_pending st.pending pid with
  | none => (st, [])
  | some p =>
    ({ st with selective_selections := setK st.selective_selections pid [] },
     itemPrompts 0 p.items ++ [Effect.editText "Select items to keep/remove"])

/-- Callbacks `keep:{pid}:{idx}` and `remove:{pid}:{idx}`: record the
decision first (`selective_selections.setdefault(pid, {})[idx] = ...`),
answer, then — only if the record exists and the map size equals the item
count — send the finalize prompt.  Note the decision is recorded before the
record is looked up, and the index is not bounds-checked. -/
def keep_remove (st : BotState) (pid idx : Nat) (keep : Bool) : BotState × List Effect :=
  let sel := setK (lookupKD st.selective_selections pid []) idx keep
  let st' := { st with selective_selections := setK st.selective_selections pid sel }
  let ans := Effect.answer (if keep then "Kept" else "Removed")
  match get_pending st'.pending pid with
  | some p =>
    if sel.length = p.items.length then
      (st', [ans, Effect.sendPrompt "All items reviewed — finalize?"])
    else
      (st', [ans])
  | none => (st', [ans])

/-- Callback `finalize:{pid}`: on a missing record, bare `return`; otherwise
filter the items through the selection map (default keep), republish the
survivors when any (batch vs single by count) followed by the attribution,
then delete the row, drop the selection map and edit the prompt.  The two
fallible sends abort the handler on failure, leaving the row in place. -/
def finalize (st : BotState) (pid : Nat) (pubOk attrOk : Bool) : BotState × List Effect :=
  match get_pending st.pending pid with
  | none => (st, [])
  | some p =>
    let sel := lookupKD st.selective_selections pid []
    let approved := approvedMedia sel p.items p.caption
    if approved = [] then
      ({ st with pending := delete_pending st.pending pid,
                 selective_selections := removeK st.selective_selections pid },
       [Effect.editText "Selective approval completed"])
    else
      if pubOk then
        if attrOk then
          ({ st with pending := delete_pending st.pending pid,
                     selective_selections := removeK st.selective_selections pid },
           [pubEffect approved true,
            Effect.sendText (attributionText p) true,
            Effect.editText "Selective approval completed"])
        else
          (st, [pubEffect approved true, Effect.sendText (attributionText p) false])
      else
        (st, [pubEffect approved false])

/-- An inbound album message, already past the guards of `handle_message`
(sent in the main group by a non-admin human, carrying a `media_group_id`
and a photo or video).  `file_id`/`type` are the extracted media reference;
`caption` uses `""` for an absent caption (Python truthiness). -/
structure AlbumMsg where
  file_id : String
  type : String
  caption : String
  user_id : Int
  username : String
  full_name : String
  chat_id : Int
  media_group_id : String
deriving DecidableEq, Repr

/-- The `album_meta[key]` dict.  Identity fields are written exactly once,
when the dict is created on the first append; the caption is written by the
first message whose caption is truthy (`if msg.caption and "caption" not in
meta`). -/
structure Meta where
  user_id : Int
  username : String
  full_name : String
  chat_id : Int
  media_group_id : String
  caption : Option String
deriving DecidableEq, Repr

/-- `MEDIA_TIMEOUT = 5.0`: the debounce quiet period, in time units. -/
def MEDIA_TIMEOUT : Nat := 5

/-- Per-group-key ingestion state: `media_buffer[key]`, `album_meta[key]`,
the fire time of the armed `flush_tasks[key]` task, and the `pending`
table together with the next AUTOINCREMENT rowid. -/
structure IngestState where
  media_buffer : List Item
  album_meta : Option Meta
  deadline : Option Nat
  pending : List (Nat × Pending)
  next_id : Nat
deriving DecidableEq, Repr

/-- The buffered entry a message contributes to `media_buffer[key]`. -/
def msgItem (m : AlbumMsg) : Item :=
  { file_id := m.file_id, type := m.type }

/-- The meta update performed by `handle_message`: create the dict with the
identity fields on first touch, then set the caption only when the message
caption is truthy and none is recorded yet. -/
def updateMeta (m : Option Meta) (msg : AlbumMsg) : Meta :=
  let base :=
    match m with
    | some meta => meta
    | none =>
      { user_id := msg.user_id, username := msg.username, full_name := msg.full_name,
        chat_id := msg.chat_id, media_group_id := msg.media_group_id, caption := none }
  match base.caption with
  | some _ => base
  | none => if msg.caption ≠ "" then { base with caption := some msg.caption } else base

/-- The row `flush_album` inserts via `save_pending`: identity and caption
from the meta dict (`meta.get("caption", "")`, then `caption or ""` in
`save_pending`), `is_album` true, items from the drained buffer. -/
def mkPending (m : Meta) (items : List Item) : Pending :=
  { chat_id := m.chat_id, user_id := m.user_id, username := m.username,
    full_name := m.full_name, media_group_id := m.media_group_id,
    is_album := true, caption := m.caption.getD "", items := items }

/-- `flush_album` body after the sleep: pop buffer, meta and task; if either
buffer or meta is empty, silent no-op; otherwise insert the pending row. -/
def flush_album (s : IngestState) : IngestState :=
  let items := s.media_buffer
  let meta := s.album_meta
  let s1 := { s with media_buffer := [], album_meta := none, deadline := none }
  match meta, items with
  | some m, _ :: _ =>
    { s1 with pending := s1.pending ++ [(s1.next_id, mkPending m items)],
              next_id := s1.next_id + 1 }
  | _, _ => s1

/-- An armed flush task whose fire time has been reached fires before the
next step is handled. -/
def fireIfDue (s : IngestState) (t : Nat) : IngestState :=
  match s.deadline with
  | some d => if d ≤ t then flush_album s else s
  | none => s

/-- The album branch of `handle_message` at time `t`: append the item,
update the meta dict, cancel the armed flush task and arm a fresh one for
`t + MEDIA_TIMEOUT`. -/
def handle_album (s : IngestState) (t : Nat) (msg : AlbumMsg) : IngestState :=
  { s with media_buffer := s.media_buffer ++ [msgItem msg],
           album_meta := some (updateMeta s.album_meta msg),
           deadline := some (t + MEDIA_TIMEOUT) }

/-- One arrival: any due flush fires first, then the message is handled. -/
def stepArrival (s : IngestState) (t : Nat) (msg : AlbumMsg) : IngestState :=
  handle_album (fireIfDue s t) t msg

/-- Process a timed arrival sequence in order. -/
def ingestSteps (s : IngestState) (arrivals : List (Nat × AlbumMsg)) : IngestState :=
  arrivals.foldl (fun s tm => stepArrival s tm.1 tm.2) s

/-- After the last arrival nothing cancels the armed task, so it fires. -/
def settle (s : IngestState) : IngestState :=
  match s.deadline with
  | some _ => flush_album s
  | none => s

/-- A whole burst: the arrivals in order, then the final flush. -/
def runBurst (s : IngestState) (arrivals : List (Nat × AlbumMsg)) : IngestState :=
  settle (ingestSteps s arrivals)

/-- Handling-only fold (no timer fires): what a burst reduces to when every
gap stays under the quiet period. -/
def runQuiet (s : IngestState) (arrivals : List (Nat × AlbumMsg)) : IngestState :=
  arrivals.foldl (fun s tm => handle_album s tm.1 tm.2) s

/-- Each arrival is no earlier than the previous one and strictly less than
the previous deadline `tp + MEDIA_TIMEOUT`. -/
def gapsFrom (tp : Nat) : List (Nat × AlbumMsg) → Bool
  | [] => true
  | (t, _) :: rest => (tp ≤ t) && (t < tp + MEDIA_TIMEOUT) && gapsFrom t rest

/-- A burst whose inter-arrival gaps all stay strictly under the quiet
period (the first arrival time is unconstrained). -/
def burstOk : List (Nat × AlbumMsg) → Bool
  | [] => true
  | (t, _) :: rest => gapsFrom t rest

/-- The meta dict accumulated over a message sequence. -/
def metaAcc : Option Meta → List AlbumMsg → Option Meta
  | m, [] => m
  | m, msg :: rest => metaAcc (some (updateMeta m msg)) rest

/-- First truthy caption of a message sequence, if any. -/
def firstCaption : List AlbumMsg → Option String
  | [] => none
  | msg :: rest => if msg.caption ≠ "" then some msg.caption else firstCaption rest

/-- Fill a missing caption from the first truthy caption of the sequence. -/
def extendCap (m : Meta) (l : List AlbumMsg) : Meta :=
  match m.caption with
  | some _ => m
  | none => { m with caption := firstCaption l }

/-- The meta dict a burst headed by `m1` accumulates. -/
def burstMeta (m1 : AlbumMsg) (msgs : List AlbumMsg) : Meta :=
  extendCap (updateMeta none m1) msgs

/-- Whether an effect is a republish (media send) to the main group. -/
def isPublish : Effect → Bool
  | Effect.publishBatch _ _ => true
  | Effect.publishSingle _ _ _ => true
  | _ => false

/-- Number of republish attempts in an effect trace. -/
def countPublish (l : List Effect) : Nat :=
  (l.filter isPublish).length

/-! Association-list lemmas. -/

theorem lookupK_setK_self {α : Type} (l : List (Nat × α)) (k : Nat) (v : α) :
    lookupK (setK l k v) k = some v := by
  induction l with
  | nil => simp [setK, lookupK]
  | cons hd tl ih =>
    obtain ⟨k', v'⟩ := hd
    by_cases h : k' = k <;> simp [setK, lookupK, h, ih]

theorem setK_setK_self {α : Type} (l : List (Nat × α)) (k : Nat) (v v' : α) :
    setK (setK l k v) k v' = setK l k v' := by
  induction l with
  | nil => simp [setK]
  | cons hd tl ih =>
    obtain ⟨k', w⟩ := hd
    by_cases h : k' = k <;> simp [setK, h, ih]

theorem lookupK_removeK_self {α : Type} (l : List (Nat × α)) (k : Nat) :
    lookupK (removeK l k) k = none := by
  induction l with
  | nil => simp [removeK, lookupK]
  | cons hd tl ih =>
    obtain ⟨k', v'⟩ := hd
    by_cases h : k' = k <;> simp [removeK, lookupK, h, ih]

theorem removeK_of_lookup_none {α : Type} (l : List (Nat × α)) (k : Nat)
    (h : lookupK l k = none) : removeK l k = l := by
  induction l with
  | nil => simp [removeK]
  | cons hd tl ih =>
    obtain ⟨k', v'⟩ := hd
    by_cases hk : k' = k
    · simp [lookupK, hk] at h
    · simp [lookupK, hk] at h
      simp [removeK, hk, ih h]

theorem mem_keys_setK {α : Type} (l : List (Nat × α)) (k j : Nat) (v : α) :
    j ∈ (setK l k v).map Prod.fst ↔ j ∈ l.map Prod.fst ∨ j = k := by
  induction l with
  | nil => simp [setK]
  | cons hd tl ih =>
    obtain ⟨k', w⟩ := hd
    by_cases h : k' = k
    · subst h; simp [setK]; tauto
    · simp [setK, h, ih]; tauto

theorem lookupK_isSome_iff_mem {α : Type} (l : List (Nat × α)) (k : Nat) :
    (lookupK l k).isSome ↔ k ∈ l.map Prod.fst := by
  induction l with
  | nil => simp [lookupK]
  | cons hd tl ih =>
    obtain ⟨k', v'⟩ := hd
    by_cases h : k' = k <;> simp [lookupK, h, ih]
    tauto

/-! Characterization of the caption-on-first media builders. -/

theorem buildGo_acc (cap : String) (rest : List Item) :
    ∀ (a : Item × Option String) (as : List (Item × Option String)),
      buildGo cap (a :: as) rest = (a :: as) ++ rest.map (fun it => (it, (none : Option String))) := by
  induction rest with
  | nil => intro a as; simp [buildGo]
  | cons it tl ih =>
    intro a as
    have : ((a :: as) ++ [(it, (none : Option String))]) = a :: (as ++ [(it, none)]) := by simp
    simp only [buildGo, List.cons_ne_nil, false_and, if_neg, not_false_iff]
    rw [show (a :: as) ++ [(it, (none : Option String))] = a :: (as ++ [(it, none)]) from by simp]
    rw [ih a (as ++ [(it, none)])]
    simp

theorem buildMedia_eq (items : List Item) (cap : String) :
    buildMedia items cap = withCap cap items := by
  cases items with
  | nil => rfl
  | cons x xs =>
    simp only [buildMedia, buildGo, withCap, List.nil_append, true_and]
    rw [buildGo_acc]
    simp

theorem approvedGo_acc (sel : List (Nat × Bool)) (cap : String) (rest : List Item) :
    ∀ (idx : Nat) (a : Item × Option String) (as : List (Item × Option String)),
      approvedGo sel cap (a :: as) idx rest
        = (a :: as) ++ (keptGo sel idx rest).map (fun it => (it, (none : Option String))) := by
  induction rest with
  | nil => intro idx a as; simp [approvedGo, keptGo]
  | cons it tl ih =>
    intro idx a as
    by_cases h : lookupKD sel idx true
    · simp only [approvedGo, keptGo, h, if_pos, List.cons_ne_nil, false_and, if_neg,
        not_false_iff]
      rw [show (a :: as) ++ [(it, (none : Option String))] = a :: (as ++ [(it, none)]) from by simp]
      rw [ih (idx + 1) a (as ++ [(it, none)])]
      simp
    · simp only [approvedGo, keptGo, h, if_neg]
      rw [ih (idx + 1) a as]
      simp [h]

theorem approvedGo_nil (sel : List (Nat × Bool)) (cap : String) (items : List Item) :
    ∀ idx : Nat, approvedGo sel cap [] idx items = withCap cap (keptGo sel idx items) := by
  induction items with
  | nil => intro idx; rfl
  | cons it tl ih =>
    intro idx
    by_cases h : lookupKD sel idx true
    · simp only [approvedGo, keptGo, h, if_pos, List.nil_append, true_and]
      rw [approvedGo_acc]
      simp [withCap]
    · simp only [approvedGo, keptGo, h, if_neg]
      exact ih (idx + 1)

theorem approvedMedia_eq (sel : List (Nat × Bool)) (items : List Item) (cap : String) :
    approvedMedia sel items cap = withCap cap (keptItems sel items) :=
  approvedGo_nil sel cap items 0

theorem keptGo_nil_sel (items : List Item) : ∀ idx : Nat, keptGo [] idx items = items := by
  induction items with
  | nil => intro idx; rfl
  | cons it tl ih => intro idx; simp [keptGo, lookupKD, lookupK, ih]

theorem withCap_eq_nil_iff (cap : String) (l : List Item) :
    withCap cap l = [] ↔ l = [] := by
  cases l <;> simp [withCap]

theorem isPublish_pubEffect (a : List (Item × Option String)) (ok : Bool) :
    isPublish (pubEffect a ok) = true := by
  match a with
  | [] => rfl
  | [m] => rfl
  | m :: m' :: rest => rfl

theorem pubEffect_cons (m0 : Item × Option String) (ms : List (Item × Option String)) (ok : Bool) :
    pubEffect (m0 :: ms) ok
      = if ms = [] then Effect.publishSingle m0.1 (orNone m0.2) ok
        else Effect.publishBatch (m0 :: ms) ok := by
  cases ms <;> simp [pubEffect]

/-! Debounce/ingestion lemmas. -/

theorem extendCap_nil (m : Meta) : extendCap m [] = m := by
  obtain ⟨uid, un, fn, cid, mgid, cap⟩ := m
  cases cap <;> simp [extendCap, firstCaption]

theorem metaAcc_char (l : List AlbumMsg) :
    ∀ m : Meta, metaAcc (some m) l = some (extendCap m l) := by
  induction l with
  | nil => intro m; simp [metaAcc, extendCap_nil]
  | cons msg tl ih =>
    intro m
    rw [show metaAcc (some m) (msg :: tl) = metaAcc (some (updateMeta (some m) msg)) tl from rfl]
    rw [ih (updateMeta (some m) msg)]
    congr 1
    obtain ⟨uid, un, fn, cid, mgid, cap⟩ := m
    cases cap with
    | some c => simp [updateMeta, extendCap, firstCaption]
    | none =>
      by_cases h : msg.caption = ""
      · simp [updateMeta, extendCap, firstCaption, h]
      · simp [updateMeta, extendCap, firstCaption, h]

theorem burstMeta_fields (m1 : AlbumMsg) (msgs : List AlbumMsg) :
    (burstMeta m1 msgs).user_id = m1.user_id ∧
    (burstMeta m1 msgs).username = m1.username ∧
    (burstMeta m1 msgs).full_name = m1.full_name ∧
    (burstMeta m1 msgs).chat_id = m1.chat_id ∧
    (burstMeta m1 msgs).media_group_id = m1.media_group_id ∧
    (burstMeta m1 msgs).caption = firstCaption (m1 :: msgs) := by
  unfold burstMeta extendCap updateMeta
  by_cases h : m1.caption = "" <;> simp [h, firstCaption]

theorem fireIfDue_of_lt (s : IngestState) (t d : Nat)
    (hd : s.deadline = some d) (h : t < d) : fireIfDue s t = s := by
  simp only [fireIfDue, hd]
  rw [if_neg (by omega)]

theorem ingestSteps_cons (s : IngestState) (t : Nat) (m : AlbumMsg)
    (tl : List (Nat × AlbumMsg)) :
    ingestSteps s ((t, m) :: tl) = ingestSteps (stepArrival s t m) tl := rfl

theorem runQuiet_cons (s : IngestState) (t : Nat) (m : AlbumMsg)
    (tl : List (Nat × AlbumMsg)) :
    runQuiet s ((t, m) :: tl) = runQuiet (handle_album s t m) tl := rfl

theorem ingestSteps_quiet : ∀ (arrivals : List (Nat × AlbumMsg)) (s : IngestState) (tp : Nat),
    s.deadline = some (tp + MEDIA_TIMEOUT) → gapsFrom tp arrivals = true →
    ingestSteps s arrivals = runQuiet s arrivals := by
  intro arrivals
  induction arrivals with
  | nil => intro s tp _ _; rfl
  | cons tm tl ih =>
    intro s tp hd hg
    obtain ⟨t, m⟩ := tm
    simp only [gapsFrom, Bool.and_eq_true, decide_eq_true_eq] at hg
    obtain ⟨⟨h1, h2⟩, h3⟩ := hg
    have hstep : stepArrival s t m = handle_album s t m := by
      unfold stepArrival
      rw [fireIfDue_of_lt s t (tp + MEDIA_TIMEOUT) hd (by omega)]
    rw [ingestSteps_cons, runQuiet_cons, hstep]
    exact ih (handle_album s t m) t rfl h3

theorem runQuiet_pending : ∀ (a : List (Nat × AlbumMsg)) (s : IngestState),
    (runQuiet s a).pending = s.pending := by
  intro a
  induction a with
  | nil => intro s; rfl
  | cons tm tl ih =>
    intro s
    obtain ⟨t, m⟩ := tm
    rw [runQuiet_cons, ih]
    rfl

theorem runQuiet_next_id : ∀ (a : List (Nat × AlbumMsg)) (s : IngestState),
    (runQuiet s a).next_id = s.next_id := by
  intro a
  induction a with
  | nil => intro s; rfl
  | cons tm tl ih =>
    intro s
    obtain ⟨t, m⟩ := tm
    rw [runQuiet_cons, ih]
    rfl

theorem runQuiet_buffer : ∀ (a : List (Nat × AlbumMsg)) (s : IngestState),
    (runQuiet s a).media_buffer
      = s.media_buffer ++ a.map (fun tm => msgItem tm.2) := by
  intro a
  induction a with
  | nil => intro s; simp [runQuiet]
  | cons tm tl ih =>
    intro s
    obtain ⟨t, m⟩ := tm
    rw [runQuiet_cons, ih]
    simp [handle_album]

theorem runQuiet_meta : ∀ (a : List (Nat × AlbumMsg)) (s : IngestState),
    (runQuiet s a).album_meta = metaAcc s.album_meta (a.map Prod.snd) := by
  intro a
  induction a with
  | nil => intro s; rfl
  | cons tm tl ih =>
    intro s
    obtain ⟨t, m⟩ := tm
    rw [runQuiet_cons, ih]
    rfl

theorem runQuiet_deadline_isSome : ∀ (a : List (Nat × AlbumMsg)) (s : IngestState),
    s.deadline.isSome → (runQuiet s a).deadline.isSome := by
  intro a
  induction a with
  | nil => intro s h; exact h
  | cons tm tl ih =>
    intro s _
    obtain ⟨t, m⟩ := tm
    rw [runQuiet_cons]
    exact ih (handle_album s t m) rfl

theorem runBurst_spec (t1 : Nat) (m1 : AlbumMsg) (rest : List (Nat × AlbumMsg))
    (pend0 : List (Nat × Pending)) (n0 : Nat) (hgap : gapsFrom t1 rest = true) :
    (runBurst ⟨[], none, none, pend0, n0⟩ ((t1, m1) :: rest)).pending
      = pend0 ++ [(n0, mkPending (burstMeta m1 (rest.map Prod.snd))
                        (msgItem m1 :: rest.map (fun tm => msgItem tm.2)))]
    ∧ (runBurst ⟨[], none, none, pend0, n0⟩ ((t1, m1) :: rest)).next_id = n0 + 1 := by
  have hsteps : ingestSteps ⟨[], none, none, pend0, n0⟩ ((t1, m1) :: rest)
      = runQuiet (handle_album ⟨[], none, none, pend0, n0⟩ t1 m1) rest := by
    rw [ingestSteps_cons]
    have hstep : stepArrival (⟨[], none, none, pend0, n0⟩ : IngestState) t1 m1
        = handle_album ⟨[], none, none, pend0, n0⟩ t1 m1 := rfl
    rw [hstep]
    exact ingestSteps_quiet rest _ t1 rfl hgap
  have hbuf : (runQuiet (handle_album ⟨[], none, none, pend0, n0⟩ t1 m1) rest).media_buffer
      = msgItem m1 :: rest.map (fun tm => msgItem tm.2) := by
    rw [runQuiet_buffer]
    simp [handle_album]
  have hmeta : (runQuiet (handle_album ⟨[], none, none, pend0, n0⟩ t1 m1) rest).album_meta
      = some (burstMeta m1 (rest.map Prod.snd)) := by
    rw [runQuiet_meta]
    rw [show (handle_album (⟨[], none, none, pend0, n0⟩ : IngestState) t1 m1).album_meta
        = some (updateMeta none m1) from rfl]
    rw [metaAcc_char]
    rfl
  have hpend : (runQuiet (handle_album ⟨[], none, none, pend0, n0⟩ t1 m1) rest).pending
      = pend0 := by rw [runQuiet_pending]; rfl
  have hnext : (runQuiet (handle_album ⟨[], none, none, pend0, n0⟩ t1 m1) rest).next_id
      = n0 := by rw [runQuiet_next_id]; rfl
  have hdl : (runQuiet (handle_album ⟨[], none, none, pend0, n0⟩ t1 m1) rest).deadline.isSome :=
    runQuiet_deadline_isSome rest _ rfl
  obtain ⟨d, hd⟩ := Option.isSome_iff_exists.mp hdl
  have hrun : runBurst ⟨[], none, none, pend0, n0⟩ ((t1, m1) :: rest)
      = flush_album (runQuiet (handle_album ⟨[], none, none, pend0, n0⟩ t1 m1) rest) := by
    unfold runBurst
    rw [hsteps]
    unfold settle
    rw [hd]
  rw [hrun]
  simp [flush_album, hmeta, hbuf, hpend, hnext]

/-! `keep_remove` state algebra. -/

theorem keep_remove_fst (st : BotState) (pid idx : Nat) (b : Bool) :
    (keep_remove st pid idx b).1
      = { st with selective_selections :=
            (setK st.selective_selections pid
              (setK (lookupKD st.selective_selections pid []) idx b)) } := by
  unfold keep_remove
  cases h : get_pending st.pending pid with
  | none => simp only [h]
  | some p =>
    simp only [h]
    split <;> rfl

theorem keep_remove_overwrite (st : BotState) (pid idx : Nat) (b b' : Bool) :
    (keep_remove (keep_remove st pid idx b).1 pid idx b').1
      = (keep_remove st pid idx b').1 := by
  rw [keep_remove_fst, keep_remove_fst, keep_remove_fst]
  have hl : lookupKD (setK st.selective_selections pid
      (setK (lookupKD st.selective_selections pid []) idx b)) pid []
      = setK (lookupKD st.selective_selections pid []) idx b := by
    unfold lookupKD
    rw [lookupK_setK_self]
    rfl
  rw [hl, setK_setK_self, setK_setK_self]

theorem nodup_keys_setK {α : Type} (l : List (Nat × α)) (k : Nat) (v : α)
    (h : (l.map Prod.fst).Nodup) : ((setK l k v).map Prod.fst).Nodup := by
  induction l with
  | nil => simp [setK]
  | cons hd tl ih =>
    obtain ⟨k', w⟩ := hd
    rw [List.map_cons, List.nodup_cons] at h
    obtain ⟨h1, h2⟩ := h
    by_cases hk : k' = k
    · subst hk
      rw [show setK ((k', w) :: tl) k' v = (k', v) :: tl from by simp [setK]]
      rw [List.map_cons, List.nodup_cons]
      exact ⟨h1, h2⟩
    · simp only [setK, if_neg hk, List.map_cons, List.nodup_cons]
      refine ⟨?_, ih h2⟩
      intro hmem
      rcases (mem_keys_setK tl k k' v).mp hmem with h' | h'
      · exact h1 h'
      · exact hk h'

/-! Concrete data used by witnesses and counterexamples. -/

def itemA : Item := { file_id := "A", type := "photo" }

def itemB : Item := { file_id := "B", type := "video" }

def itemC : Item := { file_id := "C", type := "photo" }

def pABC : Pending :=
  { chat_id := 10, user_id := 7, username := "u", full_name := "User Name",
    media_group_id := "g", is_album := true, caption := "hi", items := [itemA, itemB, itemC] }

def stABC : BotState := { pending := [(1, pABC)], selective_selections := [] }

def pAB : Pending :=
  { chat_id := 10, user_id := 7, username := "u", full_name := "User Name",
    media_group_id := "g", is_album := true, caption := "", items := [itemA, itemB] }

def stAB : BotState := { pending := [(1, pAB)], selective_selections := [] }

def stEmpty : BotState := { pending := [], selective_selections := [] }

/-- C5, counterexample.  The claim says every moderator action on a missing
id gets a NotFound-style acknowledgement and mutates nothing.  On the empty
store: `keep_remove` records the decision into `selective_selections`
(a state mutation) and answers "Kept" rather than NotFound, and `selective`
and `finalize` return with no response at all. -/
theorem C5_missing_id_counterexample :
    get_pending stEmpty.pending 1 = none
    ∧ (keep_remove stEmpty 1 0 true).1 ≠ stEmpty
    ∧ (keep_remove stEmpty 1 0 true).2 = [Effect.answer "Kept"]
    ∧ selective stEmpty 1 = (stEmpty, [])
    ∧ finalize stEmpty 1 true true = (stEmpty, []) := by
  refine ⟨rfl, by decide, rfl, rfl, rfl⟩

/-- C5, amended: on an action referencing an id with no stored record,
`approve_all` answers "Not found" with no mutation; `reject_all` edits a
generic "Rejected" with no mutation; `selective` and `finalize` mutate
nothing but respond with silence; `keep_remove` acknowledges the decision
and still writes it into the selection map (a state mutation). -/
theorem C5_missing_id_amended (st : BotState) (pid idx : Nat) (b1 b2 k : Bool)
    (hp : get_pending st.pending pid = none) :
    approve_all st pid b1 b2 = (st, [Effect.answer "Not found"])
    ∧ reject_all st pid = (st, [Effect.editText "Rejected"])
    ∧ selective st pid = (st, [])
    ∧ finalize st pid b1 b2 = (st, [])
    ∧ keep_remove st pid idx k
        = ({ st with selective_selections :=
               (setK st.selective_selections pid
                 (setK (lookupKD st.selective_selections pid []) idx k)) },
           [Effect.answer (if k then "Kept" else "Removed")]) := by
  refine ⟨?_, ?_, ?_, ?_, ?_⟩
  · simp [approve_all, hp]
  · simp [reject_all, hp]
  · simp [selective, hp]
  · simp [finalize, hp]
  · unfold keep_remove
    simp only [hp]

/-- C5 amended, witness at the empty store. -/
theorem C5_missing_id_amended_witness :
    get_pending stEmpty.pending 1 = none
    ∧ (approve_all stEmpty 1 true true = (stEmpty, [Effect.answer "Not found"])
      ∧ reject_all stEmpty 1 = (stEmpty, [Effect.editText "Rejected"])
      ∧ selective stEmpty 1 = (stEmpty, [])
      ∧ finalize stEmpty 1 true true = (stEmpty, [])
      ∧ keep_remove stEmpty 1 0 true
          = ({ stEmpty with selective_selections :=
                 (setK stEmpty.selective_selections 1
                   (setK (lookupKD stEmpty.selective_selections 1 []) 0 true)) },
             [Effect.answer (if true then "Kept" else "Removed")])) :=
  ⟨rfl, C5_missing_id_amended stEmpty 1 0 true true true rfl⟩

/-- The state reached by a sequence of keep/remove callbacks on one
`(pid, idx)` pair. -/
def runDecides (st : BotState) (pid idx : Nat) (bs : List Bool) : BotState :=
  bs.foldl (fun s b => (keep_remove s pid idx b).1) st

/-- C6: any sequence of Keep/Remove decisions on one `(id, index)` leaves
the decision map exactly as issuing only the last decision would: each
`keep_remove` overwrites `selective_selections[pid][idx]`, so only the last
write survives. -/
theorem C6_last_decision_wins (st : BotState) (pid idx : Nat) (bs : List Bool) (bl : Bool)
    (h : bs.getLast? = some bl) :
    (runDecides st pid idx bs).selective_selections
      = ((keep_remove st pid idx bl).1).selective_selections := by
  induction bs generalizing st with
  | nil => simp at h
  | cons b tl ih =>
    cases tl with
    | nil =>
      simp only [List.getLast?_singleton, Option.some.injEq] at h
      subst h
      rfl
    | cons b2 tl2 =>
      have h2 : (b2 :: tl2).getLast? = some bl := by
        simpa [List.getLast?_cons_cons] using h
      have hstep : runDecides st pid idx (b :: b2 :: tl2)
          = runDecides (keep_remove st pid idx b).1 pid idx (b2 :: tl2) := rfl
      rw [hstep, ih _ h2, keep_remove_overwrite]

/-- C6, witness: keep then remove on the same index ends as just remove. -/
theorem C6_last_decision_wins_witness :
    ([true, false].getLast? = some false)
    ∧ (runDecides stAB 1 0 [true, false]).selective_selections
      = ((keep_remove stAB 1 0 false).1).selective_selections :=
  ⟨rfl, C6_last_decision_wins stAB 1 0 [true, false] false rfl⟩


/-- Keys present in a selection map. -/
def selKeys (m : List (Nat × Bool)) : List Nat :=
  m.map Prod.fst

/-- Well-formed selection map for a submission with `n` items: keys are
distinct and in `[0, n)`. -/
def selInv (m : List (Nat × Bool)) (n : Nat) : Prop :=
  (selKeys m).Nodup ∧ ∀ k ∈ selKeys m, k < n

instance selInvDecidable (m : List (Nat × Bool)) (n : Nat) : Decidable (selInv m n) := by
  unfold selInv
  infer_instance

/-- C9, counterexample.  The claim says stored selection indices always lie
in `[0, len(items))` and the finalize prompt fires only when every index is
decided.  `keep_remove` parses the index straight from the callback data and
never bounds-checks it: deciding index 5 and then index 0 on a 2-item
submission stores the out-of-range key 5, and the size-based completeness
check (`len(sel) == len(items)`) fires the finalize prompt even though
index 1 was never decided. -/
theorem C9_selection_bounds_counterexample :
    pAB.items.length = 2
    ∧ (keep_remove (keep_remove stAB 1 5 true).1 1 0 true).1.selective_selections
        = [(1, [(5, true), (0, true)])]
    ∧ (keep_remove (keep_remove stAB 1 5 true).1 1 0 true).2
        = [Effect.answer "Kept", Effect.sendPrompt "All items reviewed — finalize?"]
    ∧ lookupK [(5, true), (0, true)] 1 = none := by
  refine ⟨rfl, by decide, by decide, rfl⟩

/-- C9, amended: the code itself never bounds-checks a decision index, but
writes of in-range indices preserve well-formedness of the selection map
(`selInv`), and on any well-formed map the size-based completeness check
`len(sel) == len(items)` used by `keep_remove` holds exactly when every
index in `[0, len(items))` has a decision. -/
theorem C9_selection_bounds_amended (m : List (Nat × Bool)) (n idx : Nat) (b : Bool)
    (hinv : selInv m n) :
    (idx < n → selInv (setK m idx b) n)
    ∧ (m.length = n ↔ ∀ i, i < n → (lookupK m i).isSome) := by
  obtain ⟨hnd, hbd⟩ := hinv
  constructor
  · intro hidx
    refine ⟨nodup_keys_setK m idx b hnd, ?_⟩
    intro j hj
    rcases (mem_keys_setK m idx j b).mp hj with h' | h'
    · exact hbd j h'
    · omega
  · have hsub : (selKeys m).toFinset ⊆ Finset.range n := by
      intro j hj
      rw [List.mem_toFinset] at hj
      exact Finset.mem_range.mpr (hbd j hj)
    have hlenkeys : (selKeys m).length = m.length := List.length_map _ _
    constructor
    · intro hlen i hi
      rw [lookupK_isSome_iff_mem]
      have hcard : (selKeys m).toFinset.card = n := by
        rw [List.toFinset_card_of_nodup hnd, hlenkeys, hlen]
      have heq : (selKeys m).toFinset = Finset.range n :=
        Finset.eq_of_subset_of_card_le hsub (by rw [hcard, Finset.card_range])
      have hmem : i ∈ (selKeys m).toFinset := by
        rw [heq]
        exact Finset.mem_range.mpr hi
      rw [List.mem_toFinset] at hmem
      exact hmem
    · intro hall
      have hsub2 : Finset.range n ⊆ (selKeys m).toFinset := by
        intro j hj
        rw [Finset.mem_range] at hj
        have hj2 := hall j hj
        rw [lookupK_isSome_iff_mem] at hj2
        rw [List.mem_toFinset]
        exact hj2
      have heq : (selKeys m).toFinset = Finset.range n :=
        Finset.Subset.antisymm hsub hsub2
      have hc := congrArg Finset.card heq
      rw [List.toFinset_card_of_nodup hnd, Finset.card_range, hlenkeys] at hc
      exact hc

/-- C9 amended, witness on a one-entry map over a 2-item submission. -/
theorem C9_selection_bounds_amended_witness :
    selInv [(0, true)] 2
    ∧ ((1 < 2 → selInv (setK [(0, true)] 1 false) 2)
      ∧ ([(0, true)].length = 2 ↔ ∀ i, i < 2 → (lookupK [(0, true)] i).isSome)) :=
  ⟨by decide, C9_selection_bounds_amended [(0, true)] 2 1 false (by decide)⟩


/-- C2: ApproveAll on an existing record with items `[A,B,C]` and caption
"hi" republishes them in that order with the caption only on the first,
deletes the row; a second ApproveAll on the same id answers "Not found" and
changes nothing (any transport outcomes `b1 b2`, which are never reached). -/
theorem C2_approve_all_republish_then_notfound (st : BotState) (pid : Nat)
    (A B C : Item) (p : Pending) (b1 b2 : Bool)
    (hp : get_pending st.pending pid = some p)
    (hitems : p.items = [A, B, C]) (hcap : p.caption = "hi") :
    approve_all st pid true true
      = ({ st with pending := delete_pending st.pending pid },
         [Effect.publishBatch [(A, some "hi"), (B, none), (C, none)] true,
          Effect.sendText (attributionText p) true,
          Effect.editText "Approved & posted"])
    ∧ approve_all { st with pending := delete_pending st.pending pid } pid b1 b2
      = ({ st with pending := delete_pending st.pending pid }, [Effect.answer "Not found"]) := by
  constructor
  · have h1 : approve_all st pid true true
        = ({ st with pending := delete_pending st.pending pid },
           [Effect.publishBatch (buildMedia p.items p.caption) true,
            Effect.sendText (attributionText p) true,
            Effect.editText "Approved & posted"]) := by
      simp [approve_all, hp]
    rw [h1, hitems, hcap, buildMedia_eq]
    simp [withCap]
  · have hnone : get_pending (delete_pending st.pending pid) pid = none :=
      lookupK_removeK_self st.pending pid
    simp [approve_all, hnone]

/-- C2, witness on a concrete three-item submission. -/
theorem C2_approve_all_republish_then_notfound_witness :
    get_pending stABC.pending 1 = some pABC
    ∧ (approve_all stABC 1 true true
        = ({ stABC with pending := delete_pending stABC.pending 1 },
           [Effect.publishBatch [(itemA, some "hi"), (itemB, none), (itemC, none)] true,
            Effect.sendText (attributionText pABC) true,
            Effect.editText "Approved & posted"])
      ∧ approve_all { stABC with pending := delete_pending stABC.pending 1 } 1 false false
        = ({ stABC with pending := delete_pending stABC.pending 1 },
           [Effect.answer "Not found"])) :=
  ⟨rfl, C2_approve_all_republish_then_notfound stABC 1 itemA itemB itemC pABC false false
    rfl rfl rfl⟩

/-- C3: Finalize computes the kept set as every index decided keep plus
every undecided index (`keptItems` with default keep).  Empty kept set:
no republish effect at all, row deleted, map cleared (under any transport
outcomes, which are never reached).  Non-empty kept set: exactly the kept
items in original relative order, caption on the first survivor iff an
original caption existed (`withCap`), then attribution, row deleted, map
cleared. -/
theorem C3_finalize_kept_set (st : BotState) (pid : Nat) (p : Pending) (b1 b2 : Bool)
    (hp : get_pending st.pending pid = some p) :
    (keptItems (lookupKD st.selective_selections pid []) p.items = [] →
      finalize st pid b1 b2
        = ({ st with pending := delete_pending st.pending pid,
                     selective_selections := removeK st.selective_selections pid },
           [Effect.editText "Selective approval completed"]))
    ∧ (keptItems (lookupKD st.selective_selections pid []) p.items ≠ [] →
      finalize st pid true true
        = ({ st with pending := delete_pending st.pending pid,
                     selective_selections := removeK st.selective_selections pid },
           [pubEffect (withCap p.caption
              (keptItems (lookupKD st.selective_selections pid []) p.items)) true,
            Effect.sendText (attributionText p) true,
            Effect.editText "Selective approval completed"])) := by
  constructor
  · intro hk
    have happ : approvedMedia (lookupKD st.selective_selections pid []) p.items p.caption = [] := by
      rw [approvedMedia_eq, hk]
      rfl
    simp [finalize, hp, happ]
  · intro hk
    have happ : approvedMedia (lookupKD st.selective_selections pid []) p.items p.caption
        = withCap p.caption (keptItems (lookupKD st.selective_selections pid []) p.items) :=
      approvedMedia_eq _ _ _
    have hne : withCap p.caption (keptItems (lookupKD st.selective_selections pid []) p.items)
        ≠ [] := by
      intro hc
      exact hk ((withCap_eq_nil_iff _ _).mp hc)
    simp [finalize, hp, happ, hne]

/-- C3 partial-decision state: index 1 of `pABC` was decided "remove". -/
def stSel : BotState :=
  { pending := [(1, pABC)], selective_selections := [(1, [(1, false)])] }

/-- C3, witness: with decisions `[1 := remove]` on items `[A,B,C]`, the kept
set defaults indices 0 and 2 to keep, so `[A,C]` survives. -/
theorem C3_finalize_kept_set_witness :
    get_pending stSel.pending 1 = some pABC
    ∧ keptItems (lookupKD stSel.selective_selections 1 []) pABC.items = [itemA, itemC]
    ∧ ((keptItems (lookupKD stSel.selective_selections 1 []) pABC.items = [] →
        finalize stSel 1 true true
          = ({ stSel with pending := delete_pending stSel.pending 1,
                          selective_selections := removeK stSel.selective_selections 1 },
             [Effect.editText "Selective approval completed"]))
      ∧ (keptItems (lookupKD stSel.selective_selections 1 []) pABC.items ≠ [] →
        finalize stSel 1 true true
          = ({ stSel with pending := delete_pending stSel.pending 1,
                          selective_selections := removeK stSel.selective_selections 1 },
             [pubEffect (withCap pABC.caption
                (keptItems (lookupKD stSel.selective_selections 1 []) pABC.items)) true,
              Effect.sendText (attributionText pABC) true,
              Effect.editText "Selective approval completed"]))) :=
  ⟨rfl, by decide, C3_finalize_kept_set stSel 1 pABC true true rfl⟩

/-- Single-item submission without caption, for the C7 counterexample. -/
def pSingle : Pending :=
  { chat_id := 10, user_id := 7, username := "u", full_name := "User Name",
    media_group_id := "", is_album := false, caption := "", items := [itemA] }

def stSingle : BotState := { pending := [(1, pSingle)], selective_selections := [] }

/-- C7, counterexample.  The claim says ApproveAll and Finalize share the
branching republish algorithm (batched post iff more than one surviving
item).  `approve_all` calls `send_media_group` unconditionally: on a
one-item submission it emits a batched post of length 1, never the
single-item send, so the shared-algorithm claim fails. -/
theorem C7_republish_shape_counterexample :
    pSingle.items.length = 1
    ∧ (approve_all stSingle 1 true true).2
        = [Effect.publishBatch [(itemA, none)] true,
           Effect.sendText (attributionText pSingle) true,
           Effect.editText "Approved & posted"]
    ∧ ∀ it cap ok, Effect.publishBatch [(itemA, none)] true
        ≠ Effect.publishSingle it cap ok := by
  refine ⟨rfl, by decide, ?_⟩
  intro it cap ok h
  exact Effect.noConfusion h

/-- C7, amended: `finalize` uses the branching algorithm — batched post when
more than one item survives, single-item post when exactly one survives —
while `approve_all` always republishes as one batched post regardless of
item count; both follow with a separate attribution message naming the
submitter. -/
theorem C7_republish_shape_amended (st : BotState) (pid : Nat) (p : Pending)
    (m0 : Item × Option String) (ms : List (Item × Option String))
    (hp : get_pending st.pending pid = some p) :
    (approve_all st pid true true).2
      = [Effect.publishBatch (buildMedia p.items p.caption) true,
         Effect.sendText (attributionText p) true,
         Effect.editText "Approved & posted"]
    ∧ (approvedMedia (lookupKD st.selective_selections pid []) p.items p.caption = m0 :: ms →
        (finalize st pid true true).2
          = [(if ms = [] then Effect.publishSingle m0.1 (orNone m0.2) true
              else Effect.publishBatch (m0 :: ms) true),
             Effect.sendText (attributionText p) true,
             Effect.editText "Selective approval completed"]) := by
  constructor
  · simp [approve_all, hp]
  · intro happ
    simp [finalize, hp, happ, pubEffect_cons]

/-- C7 amended, witness on the three-item submission with caption "hi". -/
theorem C7_republish_shape_amended_witness :
    get_pending stABC.pending 1 = some pABC
    ∧ ((approve_all stABC 1 true true).2
        = [Effect.publishBatch (buildMedia pABC.items pABC.caption) true,
           Effect.sendText (attributionText pABC) true,
           Effect.editText "Approved & posted"]
      ∧ (approvedMedia (lookupKD stABC.selective_selections 1 []) pABC.items pABC.caption
            = (itemA, some "hi") :: [(itemB, none), (itemC, none)] →
          (finalize stABC 1 true true).2
            = [(if ([(itemB, none), (itemC, none)] : List (Item × Option String)) = []
                then Effect.publishSingle (itemA, some "hi").1 (orNone (itemA, some "hi").2) true
                else Effect.publishBatch ((itemA, some "hi") :: [(itemB, none), (itemC, none)]) true),
               Effect.sendText (attributionText pABC) true,
               Effect.editText "Selective approval completed"])) :=
  ⟨rfl, C7_republish_shape_amended stABC 1 pABC (itemA, some "hi") [(itemB, none), (itemC, none)]
    rfl⟩

/-- C8: a failing republish during ApproveAll (or during a Finalize that has
something to publish) aborts the handler before `delete_pending`, so the
state — including the record — is unchanged and the same action can be
retried; exactly one publish attempt appears in the trace (no internal
retry). -/
theorem C8_publish_failure_keeps_record (st : BotState) (pid : Nat) (p : Pending) (b : Bool)
    (hp : get_pending st.pending pid = some p) :
    ((approve_all st pid false b).1 = st
      ∧ countPublish (approve_all st pid false b).2 = 1
      ∧ get_pending (approve_all st pid false b).1.pending pid = some p)
    ∧ (approvedMedia (lookupKD st.selective_selections pid []) p.items p.caption ≠ [] →
        (finalize st pid false b).1 = st
        ∧ countPublish (finalize st pid false b).2 = 1
        ∧ get_pending (finalize st pid false b).1.pending pid = some p) := by
  have ha : approve_all st pid false b
      = (st, [Effect.publishBatch (buildMedia p.items p.caption) false]) := by
    simp [approve_all, hp]
  constructor
  · rw [ha]
    exact ⟨rfl, rfl, hp⟩
  · intro hne
    have hf : finalize st pid false b
        = (st, [pubEffect
            (approvedMedia (lookupKD st.selective_selections pid []) p.items p.caption) false]) := by
      simp [finalize, hp, hne]
    rw [hf]
    refine ⟨rfl, ?_, hp⟩
    simp [countPublish, isPublish_pubEffect]

/-- C8, witness on the three-item submission. -/
theorem C8_publish_failure_keeps_record_witness :
    get_pending stABC.pending 1 = some pABC
    ∧ (((approve_all stABC 1 false true).1 = stABC
      ∧ countPublish (approve_all stABC 1 false true).2 = 1
      ∧ get_pending (approve_all stABC 1 false true).1.pending 1 = some pABC)
    ∧ (approvedMedia (lookupKD stABC.selective_selections 1 []) pABC.items pABC.caption ≠ [] →
        (finalize stABC 1 false true).1 = stABC
        ∧ countPublish (finalize stABC 1 false true).2 = 1
        ∧ get_pending (finalize stABC 1 false true).1.pending 1 = some pABC)) :=
  ⟨rfl, C8_publish_failure_keeps_record stABC 1 pABC true rfl⟩

/-- C10: Finalize is accepted even when selective review was never started:
with no selection entry for the id, every index defaults to keep, all items
are republished (with the caption rule) followed by attribution, and the
record is deleted — no phase/status check happens. -/
theorem C10_finalize_without_review (st : BotState) (pid : Nat) (p : Pending)
    (x : Item) (xs : List Item)
    (hp : get_pending st.pending pid = some p)
    (hsel : lookupK st.selective_selections pid = none)
    (hitems : p.items = x :: xs) :
    finalize st pid true true
      = ({ st with pending := delete_pending st.pending pid },
         [pubEffect (withCap p.caption (x :: xs)) true,
          Effect.sendText (attributionText p) true,
          Effect.editText "Selective approval completed"]) := by
  have hsel0 : lookupKD st.selective_selections pid [] = [] := by
    unfold lookupKD
    rw [hsel]
    rfl
  have happ : approvedMedia (lookupKD st.selective_selections pid []) p.items p.caption
      = withCap p.caption (x :: xs) := by
    rw [approvedMedia_eq, hsel0, hitems]
    unfold keptItems
    rw [keptGo_nil_sel]
  have hne : withCap p.caption (x :: xs) ≠ [] := by
    simp [withCap]
  have hrm : removeK st.selective_selections pid = st.selective_selections :=
    removeK_of_lookup_none _ _ hsel
  simp [finalize, hp, happ, hne, hrm]

/-- C10, witness: two-item submission, selective review never started. -/
theorem C10_finalize_without_review_witness :
    get_pending stAB.pending 1 = some pAB
    ∧ lookupK stAB.selective_selections 1 = none
    ∧ finalize stAB 1 true true
        = ({ stAB with pending := delete_pending stAB.pending 1 },
           [pubEffect (withCap pAB.caption (itemA :: [itemB])) true,
            Effect.sendText (attributionText pAB) true,
            Effect.editText "Selective approval completed"]) :=
  ⟨rfl, rfl, C10_finalize_without_review stAB 1 pAB itemA [itemB] rfl rfl rfl⟩


/-- C1: a burst of N >= 1 items on one group key whose inter-arrival gaps
stay strictly under the quiet period creates exactly one pending row, whose
items are all N items in arrival order (the store grows by exactly that one
row and the id counter by one). -/
theorem C1_burst_single_submission (arrivals : List (Nat × AlbumMsg))
    (pend0 : List (Nat × Pending)) (n0 : Nat)
    (hne : arrivals ≠ []) (hb : burstOk arrivals = true) :
    ∃ m : Meta,
      (runBurst ⟨[], none, none, pend0, n0⟩ arrivals).pending
        = pend0 ++ [(n0, mkPending m (arrivals.map (fun tm => msgItem tm.2)))]
      ∧ (runBurst ⟨[], none, none, pend0, n0⟩ arrivals).next_id = n0 + 1 := by
  cases arrivals with
  | nil => exact absurd rfl hne
  | cons tm rest =>
    obtain ⟨t1, m1⟩ := tm
    have hgap : gapsFrom t1 rest = true := hb
    obtain ⟨h1, h2⟩ := runBurst_spec t1 m1 rest pend0 n0 hgap
    refine ⟨burstMeta m1 (rest.map Prod.snd), ?_, h2⟩
    rw [h1]
    simp

/-- C1, witness: two items 3 time units apart. -/
def amsgA : AlbumMsg :=
  { file_id := "A", type := "photo", caption := "hi", user_id := 7, username := "u",
    full_name := "User Name", chat_id := 10, media_group_id := "g" }

def amsgB : AlbumMsg :=
  { file_id := "B", type := "video", caption := "bye", user_id := 7, username := "u",
    full_name := "User Name", chat_id := 10, media_group_id := "g" }

def amsgC : AlbumMsg :=
  { file_id := "C", type := "photo", caption := "", user_id := 7, username := "u",
    full_name := "User Name", chat_id := 10, media_group_id := "g" }

theorem C1_burst_single_submission_witness :
    (([(0, amsgA), (3, amsgB)] : List (Nat × AlbumMsg)) ≠ [])
    ∧ burstOk [(0, amsgA), (3, amsgB)] = true
    ∧ ∃ m : Meta,
        (runBurst ⟨[], none, none, [], 0⟩ [(0, amsgA), (3, amsgB)]).pending
          = [] ++ [(0, mkPending m
              (([(0, amsgA), (3, amsgB)] : List (Nat × AlbumMsg)).map (fun tm => msgItem tm.2)))]
        ∧ (runBurst ⟨[], none, none, [], 0⟩ [(0, amsgA), (3, amsgB)]).next_id = 0 + 1 :=
  ⟨by decide, by decide,
    C1_burst_single_submission [(0, amsgA), (3, amsgB)] [] 0 (by decide) (by decide)⟩

/-- C4: the submission a burst flushes into carries the first truthy caption
seen among its items (later captions in the same group are discarded, stored
as `""` when no caption ever appeared) and the submitter identity fields of
the first appended item only. -/
theorem C4_caption_first_wins (t1 : Nat) (m1 : AlbumMsg) (rest : List (Nat × AlbumMsg))
    (pend0 : List (Nat × Pending)) (n0 : Nat)
    (hgap : gapsFrom t1 rest = true) :
    ∃ p : Pending,
      (runBurst ⟨[], none, none, pend0, n0⟩ ((t1, m1) :: rest)).pending = pend0 ++ [(n0, p)]
      ∧ p.caption = (firstCaption (m1 :: rest.map Prod.snd)).getD ""
      ∧ p.user_id = m1.user_id ∧ p.username = m1.username
      ∧ p.full_name = m1.full_name ∧ p.chat_id = m1.chat_id := by
  obtain ⟨h1, _⟩ := runBurst_spec t1 m1 rest pend0 n0 hgap
  obtain ⟨f1, f2, f3, f4, f5, f6⟩ := burstMeta_fields m1 (rest.map Prod.snd)
  refine ⟨mkPending (burstMeta m1 (rest.map Prod.snd))
      (msgItem m1 :: rest.map (fun tm => msgItem tm.2)), h1, ?_, ?_, ?_, ?_, ?_⟩
  · show (burstMeta m1 (rest.map Prod.snd)).caption.getD "" = _
    rw [f6]
  · exact f1
  · exact f2
  · exact f3
  · exact f4

/-- C4, witness: the spec's example A(caption "hi"), B(caption "bye"),
C(no caption) — the flushed submission's caption is "hi". -/
theorem C4_caption_first_wins_witness :
    gapsFrom 0 [(1, amsgB), (2, amsgC)] = true
    ∧ (firstCaption (amsgA :: ([(1, amsgB), (2, amsgC)] : List (Nat × AlbumMsg)).map Prod.snd)).getD ""
        = "hi"
    ∧ ∃ p : Pending,
        (runBurst ⟨[], none, none, [], 0⟩ ((0, amsgA) :: [(1, amsgB), (2, amsgC)])).pending
          = [] ++ [(0, p)]
        ∧ p.caption
            = (firstCaption (amsgA :: ([(1, amsgB), (2, amsgC)] : List (Nat × AlbumMsg)).map Prod.snd)).getD ""
        ∧ p.user_id = amsgA.user_id ∧ p.username = amsgA.username
        ∧ p.full_name = amsgA.full_name ∧ p.chat_id = amsgA.chat_id :=
  ⟨by decide, by decide, C4_caption_first_wins 0 amsgA [(1, amsgB), (2, amsgC)] [] 0 (by decide)⟩

end MediaBot
